import Mathlib

/-!
Verification of the argument-stream engine of the redis-go repository
(`args.go`), together with spec-modelled fragments of the transport and
server lifecycle whose implementation is exercised only by the contract
tests in the repository.

The embedding follows `args.go` closely:

* `StreamDec` models the external `objconv.StreamDecoder` collaborator
  (declared out of scope by the spec as a serialization codec): a cursor
  over an already-tokenized sequence of RESP values with a sticky internal
  error; `Decode` pops a value and converts it, `Len` reports remaining
  values (0 once an error, including end-of-stream, occurred), `Err`
  reports the error while masking the normal end-of-stream marker.
* `ArgsReader` models `argsReader`: a decoder, the `err` field, the
  `sync.Once` guard (as a Boolean `onceDone`), and the `done` channel
  (as a presence flag `hasDone` plus a log `doneSent` of sent messages).
* `ByteArgsReader` models `byteArgsReader`: the embedded reader plus the
  reusable byte buffer `b`, with `parse` dispatching on the destination's
  reflected kind (`Kind`).
-/

/-- Errors observable through the argument-stream API.  RESP error replies,
the decoder's end-of-stream marker, conversion failures, the numeric-parse
failures of `objutil.ParseInt` / `strconv.ParseUint` / `strconv.ParseFloat`,
the unsupported-destination error of `byteArgsReader.parse` (carrying the
printed destination type), and the context-cancellation error. -/
inductive GoErr where
  | respError (msg : String)
  | endOfStream
  | convError (raw : String)
  | parseIntError (s : String)
  | parseUintError (s : String)
  | parseFloatError (s : String)
  | unsupportedType (tyName : String)
  | contextCanceled
deriving DecidableEq

/-- One RESP value as handed to the stream decoder by the parser:
integer, bulk string, simple string, or error-typed value. -/
inductive RVal where
  | rint (i : Int)
  | rbulk (s : String)
  | rsimple (s : String)
  | rerror (msg : String)
deriving DecidableEq

/-- Whether the value is RESP error-typed (the `objconv.Error` type tag
checked by `argsReader.Next` via `ParseType`). -/
def RVal.isError : RVal → Bool
  | .rerror _ => true
  | _ => false

/-- The byte representation of a value when decoded into a `[]byte`
destination (what ends up in `byteArgsReader.b`). -/
def RVal.bytesOf : RVal → String
  | .rint i => toString i
  | .rbulk s => s
  | .rsimple s => s
  | .rerror m => m

/-- Accumulator loop of decimal digit parsing; fails on a non-digit. -/
def digitsAcc : List Char → Nat → Option Nat
  | [], acc => some acc
  | c :: cs, acc => if c.isDigit then digitsAcc cs (acc * 10 + (c.toNat - 48)) else none

/-- Parses a nonempty run of decimal digits. -/
def parseDigits : List Char → Option Nat
  | [] => none
  | cs => digitsAcc cs 0

/-- Model of `objutil.ParseInt`: optional minus sign, decimal digits,
64-bit signed range check. -/
def objutilParseInt (s : String) : Except GoErr Int :=
  match s.data with
  | '-' :: cs =>
    match parseDigits cs with
    | some n => if (n : Int) ≤ 2 ^ 63 then .ok (-(n : Int)) else .error (.parseIntError s)
    | none => .error (.parseIntError s)
  | cs =>
    match parseDigits cs with
    | some n => if (n : Int) < 2 ^ 63 then .ok (n : Int) else .error (.parseIntError s)
    | none => .error (.parseIntError s)

/-- Model of `strconv.ParseUint(s, 10, 64)`: decimal digits only, no sign,
64-bit range check. -/
def strconvParseUint (s : String) : Except GoErr Nat :=
  match parseDigits s.data with
  | some n => if n < 2 ^ 64 then .ok n else .error (.parseUintError s)
  | none => .error (.parseUintError s)

/-- All characters are decimal digits. -/
def allDigits : List Char → Bool
  | [] => true
  | c :: cs => c.isDigit && allDigits cs

/-- Splits off the longest leading run of decimal digits. -/
def splitDigits : List Char → List Char × List Char
  | [] => ([], [])
  | c :: cs =>
    if c.isDigit then
      let p := splitDigits cs
      (c :: p.1, p.2)
    else ([], c :: cs)

/-- Unsigned decimal float syntax: at least one digit, optionally followed
by a dot and at least one more digit. -/
def validFloatBody (cs : List Char) : Bool :=
  let p := splitDigits cs
  !p.1.isEmpty &&
    (p.2.isEmpty ||
      (match p.2 with
       | '.' :: fs => !fs.isEmpty && allDigits fs
       | _ => false))

/-- Syntactic model of the inputs accepted by `strconv.ParseFloat`
(an external stdlib collaborator): optional sign then a decimal body. -/
def validFloat (s : String) : Bool :=
  match s.data with
  | '-' :: cs => validFloatBody cs
  | '+' :: cs => validFloatBody cs
  | cs => validFloatBody cs

/-- Destination categories used through the generic `argsReader` path
(decoding via `objconv` reflection): integer, string, and byte-slice
destinations. -/
inductive Dst where
  | intDst
  | strDst
  | bytesDst
deriving DecidableEq

/-- Whether an `Except` result is `ok`. -/
def exceptOk {α β : Type} : Except α β → Bool
  | .ok _ => true
  | .error _ => false

/-- Whether the decoder can convert value `v` into a destination of the
given category (the reflection-driven conversion inside
`objconv.StreamDecoder.Decode`).  Error-typed values convert into none of
them; strings convert into integers only when they read as a decimal
integer. -/
def convOk : RVal → Dst → Bool
  | .rerror _, _ => false
  | .rint _, .intDst => true
  | v, .intDst => exceptOk (objutilParseInt v.bytesOf)
  | _, .strDst => true
  | _, .bytesDst => true

/-- Model of `objconv.StreamDecoder`: the values remaining to be read and
the decoder's own sticky error (`endOfStream` once the sequence is
exhausted). -/
structure StreamDec where
  remaining : List RVal
  derr : Option GoErr
deriving DecidableEq

/-- `StreamDecoder.Len`: number of values remaining, 0 once the decoder is
in error (including end-of-stream). -/
def StreamDec.Len (d : StreamDec) : Nat :=
  if d.derr.isSome then 0 else d.remaining.length

/-- `StreamDecoder.Err`: the decoder error, with the normal end-of-stream
marker masked to nil. -/
def StreamDec.Err (d : StreamDec) : Option GoErr :=
  if d.derr = some .endOfStream then none else d.derr

/-- Whether the next token is RESP error-typed, as reported by
`Parser.ParseType`; only consulted when the decoder is live and values
remain. -/
def StreamDec.nextIsError (d : StreamDec) : Bool :=
  match d.remaining with
  | .rerror _ :: _ => true
  | _ => false

/-- `StreamDecoder.Decode`: returns the sticky error if set; signals and
records `endOfStream` on an exhausted sequence; otherwise pops the next
value and converts it into the destination (`none` = discard, which always
succeeds).  Returns (error, bytes written to a byte-slice destination,
decoder after the call); a conversion failure consumes the value and
becomes the decoder's sticky error. -/
def StreamDec.Decode (d : StreamDec) (dst : Option Dst) :
    Option GoErr × Option String × StreamDec :=
  match d.derr with
  | some e => (some e, none, d)
  | none =>
    match d.remaining with
    | [] => (some .endOfStream, none, ⟨[], some .endOfStream⟩)
    | v :: rest =>
      match dst with
      | none => (none, none, ⟨rest, none⟩)
      | some t =>
        if convOk v t then
          (none, if t = .bytesDst then some v.bytesOf else none, ⟨rest, none⟩)
        else
          (some (.convError v.bytesOf), none, ⟨rest, some (.convError v.bytesOf)⟩)

/-- The discard loop of `argsReader.Close` restricted to a live decoder:
`for dec.Decode(nil) == nil` pops every remaining value and then records
end-of-stream. -/
def discardLoop : List RVal → StreamDec
  | [] => ⟨[], some .endOfStream⟩
  | _ :: rest => discardLoop rest

/-- Result of the discard loop of `argsReader.Close`: if the decoder is
already in error the first `Decode(nil)` returns it and nothing is
discarded; otherwise all remaining values are popped and end-of-stream is
recorded. -/
def StreamDec.discardAll (d : StreamDec) : StreamDec :=
  match d.derr with
  | some _ => d
  | none => discardLoop d.remaining

/-- Model of `argsReader`: stream decoder, sticky `err` field, the
`sync.Once` guard, and the completion channel (`hasDone` = the channel is
non-nil, `doneSent` = log of values sent on it). -/
structure ArgsReader where
  dec : StreamDec
  err : Option GoErr
  onceDone : Bool
  hasDone : Bool
  doneSent : List (Option GoErr)
deriving DecidableEq

/-- Model of `newArgsReader`: fresh reader over the announced values. -/
def newArgsReader (vals : List RVal) (hasDone : Bool) : ArgsReader :=
  ⟨⟨vals, none⟩, none, false, hasDone, []⟩

/-- `argsReader.Close`: under the once-guard, discard all remaining values,
send `dec.Err()` on the done channel when present, and cache the error into
`err` if it is still nil; always return the (cached) `err`. -/
def ArgsReader.Close (a : ArgsReader) : Option GoErr × ArgsReader :=
  if a.onceDone then (a.err, a)
  else
    let d := a.dec.discardAll
    let e := d.Err
    let sent := if a.hasDone then a.doneSent ++ [e] else a.doneSent
    let newErr := if a.err.isSome then a.err else e
    (newErr, ⟨d, newErr, true, a.hasDone, sent⟩)

/-- `argsReader.Len`: 0 when the sticky error is set, else the decoder's
remaining count. -/
def ArgsReader.Len (a : ArgsReader) : Nat :=
  if a.err.isSome then 0 else a.dec.Len

/-- `argsReader.Next`, additionally reporting the bytes written into a
byte-slice destination (needed by `byteArgsReader.Next` which decodes into
its scratch buffer): fail fast on a sticky error; when values remain and
the next is RESP error-typed, decode it into `err` and return false;
otherwise decode into the destination. -/
def ArgsReader.NextWith (a : ArgsReader) (dst : Option Dst) :
    Bool × Option String × ArgsReader :=
  if a.err.isSome then (false, none, a)
  else if a.dec.Len ≠ 0 ∧ a.dec.nextIsError = true then
    match a.dec.remaining with
    | .rerror m :: rest =>
      (false, none, { a with dec := ⟨rest, a.dec.derr⟩, err := some (.respError m) })
    | _ => (false, none, a)
  else
    match a.dec.Decode dst with
    | (e, out, d) => (e.isNone, out, { a with dec := d })

/-- `argsReader.Next` as seen by callers. -/
def ArgsReader.Next (a : ArgsReader) (dst : Option Dst) : Bool × ArgsReader :=
  match a.NextWith dst with
  | (ok, _, a2) => (ok, a2)

/-- Model of `ParseArgs`: read destinations in order via `Next`, break at
the first failure, then close the list and return the close result. -/
def ParseArgs (a : ArgsReader) : List (Option Dst) → Option GoErr × ArgsReader
  | [] => a.Close
  | dst :: dsts =>
    match a.Next dst with
    | (true, a2) => ParseArgs a2 dsts
    | (false, a2) => a2.Close

namespace redis

/-- Model of `Int`: parse one integer argument and close the list. -/
def Int (args : ArgsReader) : Option GoErr × ArgsReader :=
  ParseArgs args [some .intDst]

/-- Model of `Int64`: parse one 64-bit integer argument and close the
list. -/
def Int64 (args : ArgsReader) : Option GoErr × ArgsReader :=
  ParseArgs args [some .intDst]

/-- Model of `String`: parse one string argument and close the list. -/
def String (args : ArgsReader) : Option GoErr × ArgsReader :=
  ParseArgs args [some .strDst]

end redis

/-- Reflected kinds of Go destination types, as inspected by
`byteArgsReader.parse` via `reflect.Value.Kind`. -/
inductive Kind where
  | bool | int | int8 | int16 | int32 | int64
  | uint | uint8 | uint16 | uint32 | uint64 | uintptr
  | float32 | float64 | string
  | slice (elem : Kind)
  | arrayK (elem : Kind)
  | chanK | funcK | interfaceK | mapK | ptrK | structK
  | complex64 | complex128
deriving DecidableEq

/-- Printed form of a destination type (what `v.Type()` interpolates into
the unsupported-type error message). -/
def Kind.typeName : Kind → String
  | .bool => "bool"
  | .int => "int"
  | .int8 => "int8"
  | .int16 => "int16"
  | .int32 => "int32"
  | .int64 => "int64"
  | .uint => "uint"
  | .uint8 => "uint8"
  | .uint16 => "uint16"
  | .uint32 => "uint32"
  | .uint64 => "uint64"
  | .uintptr => "uintptr"
  | .float32 => "float32"
  | .float64 => "float64"
  | .string => "string"
  | .slice e => "[]" ++ e.typeName
  | .arrayK e => "[N]" ++ e.typeName
  | .chanK => "chan"
  | .funcK => "func"
  | .interfaceK => "interface"
  | .mapK => "map"
  | .ptrK => "ptr"
  | .structK => "struct"
  | .complex64 => "complex64"
  | .complex128 => "complex128"

/-- Value produced by `byteArgsReader.parse` into the destination. -/
inductive PVal where
  | pbool (b : Bool)
  | pint (i : Int)
  | puint (n : Nat)
  | pfloat (s : String)
  | pstr (s : String)
  | pbytes (s : String)
deriving DecidableEq

/-- Model of `byteArgsReader`: the embedded `argsReader` plus the reusable
byte buffer `b` holding the most recently decoded raw value. -/
structure ByteArgsReader where
  ar : ArgsReader
  b : String
deriving DecidableEq

/-- Model of `newByteArgsReader`. -/
def newByteArgsReader (vals : List RVal) (hasDone : Bool) : ByteArgsReader :=
  ⟨newArgsReader vals hasDone, ""⟩

/-- Model of `byteArgsReader.parse`: dispatch on the destination kind —
bool and the signed integer kinds via `objutil.ParseInt`, the unsigned
kinds via `strconv.ParseUint`, the float kinds via `strconv.ParseFloat`,
string and `[]uint8` directly; every other kind (a non-byte slice falls
through its case) yields the unsupported-output-type error naming the
destination type. -/
def ByteArgsReader.parse (args : ByteArgsReader) (k : Kind) : Except GoErr PVal :=
  match k with
  | .bool => (objutilParseInt args.b).map (fun i => .pbool (i != 0))
  | .int | .int8 | .int16 | .int32 | .int64 =>
    (objutilParseInt args.b).map (fun i => .pint i)
  | .uint | .uint8 | .uint16 | .uint32 | .uint64 | .uintptr =>
    (strconvParseUint args.b).map (fun n => .puint n)
  | .float32 | .float64 =>
    if validFloat args.b then .ok (.pfloat args.b) else .error (.parseFloatError args.b)
  | .string => .ok (.pstr args.b)
  | .slice e =>
    if e = .uint8 then .ok (.pbytes args.b)
    else .error (.unsupportedType (Kind.typeName (.slice e)))
  | k => .error (.unsupportedType k.typeName)

/-- Model of `byteArgsReader.Next`: reset the buffer, decode the next raw
value into it via the embedded reader; on success, a nil destination is
accepted as-is, otherwise `parse` converts the bytes and a parse failure
becomes the sticky error with a false return. -/
def ByteArgsReader.Next (args : ByteArgsReader) (val : Option Kind) :
    Bool × ByteArgsReader :=
  match args.ar.NextWith (some .bytesDst) with
  | (true, out, ar2) =>
    let a2 : ByteArgsReader := ⟨ar2, out.getD ""⟩
    match val with
    | none => (true, a2)
    | some k =>
      match a2.parse k with
      | .ok _ => (true, a2)
      | .error e => (false, ⟨{ ar2 with err := some e }, a2.b⟩)
  | (false, _, ar2) => (false, ⟨ar2, ""⟩)

/-- The closed set of destination kinds the spec's design notes enumerate:
boolean, signed integer, unsigned integer, floating point, string, and
byte slice.  Stated from the spec's words, to be compared with the
dispatch of `byteArgsReader.parse`. -/
def specSupported : Kind → Bool
  | .bool | .int | .int8 | .int16 | .int32 | .int64
  | .uint | .uint8 | .uint16 | .uint32 | .uint64 | .uintptr
  | .float32 | .float64 | .string => true
  | .slice e => e = .uint8
  | _ => false

/-- One API call on an argument stream, for reasoning about call
sequences. -/
inductive AOp where
  | next (dst : Option Dst)
  | len
  | close
deriving DecidableEq

/-- State left behind by one API call.  `Len` reads `err` and the
decoder's count and performs no assignment, so it leaves the state
unchanged. -/
def stepOp (a : ArgsReader) : AOp → ArgsReader
  | .next d => (a.Next d).2
  | .len => a
  | .close => (a.Close).2

/-- Runs a sequence of API calls. -/
def runOps (a : ArgsReader) : List AOp → ArgsReader
  | [] => a
  | op :: ops => runOps (stepOp a op) ops

/-- Modelled from the spec: a request submitted on one client connection —
the streamed `LRANGE` query of a caller asking for `count` elements, or a
keepalive ping.  The Connection/Transport implementation is not under
`src/`; only its contract tests are. -/
inductive Req where
  | lrange (caller : Nat) (count : Nat)
  | ping
deriving DecidableEq

/-- Modelled from the spec: the server's reply to one request, produced in
request arrival order — `i` values `1..i` for a streamed query of `i`
elements (as in the contract test), a single pong for a ping. -/
def respond : Req → List Int
  | .lrange _ i => (List.range i).map (fun j => ((j + 1 : Nat) : Int))
  | .ping => [0]

/-- Modelled from the spec: the state of one physical connection shared by
concurrent callers — the wire log of written requests, the count of
replies already consumed by the reader loop, the FIFO queue of pending
callers, and the log of (pending caller, values delivered) pairs. -/
structure ConnState where
  wire : List Req
  answered : Nat
  pending : List Req
  delivered : List (Req × List Int)
deriving DecidableEq

/-- Modelled from the spec: an event on the shared connection — a caller
atomically writing its request frame and enqueueing its pending record
("enqueue PendingCall and send frame happen as one atomic step"), or the
background reader decoding the next reply (produced by the server for the
oldest unanswered wire request) and handing it to the head of the pending
queue. -/
inductive CEvent where
  | submit (r : Req)
  | deliver
deriving DecidableEq

/-- Modelled from the spec: one step of the connection state machine. -/
def cstep (s : ConnState) : CEvent → ConnState
  | .submit r => { s with wire := s.wire ++ [r], pending := s.pending ++ [r] }
  | .deliver =>
    match s.pending with
    | [] => s
    | r :: rest =>
      { s with
        pending := rest
        answered := s.answered + 1
        delivered := s.delivered ++ [(r, respond (s.wire.getD s.answered .ping))] }

/-- Runs a sequence of connection events. -/
def crun (s : ConnState) : List CEvent → ConnState
  | [] => s
  | ev :: evs => crun (cstep s ev) evs

/-- The fresh connection. -/
def connInit : ConnState := ⟨[], 0, [], []⟩

/-- Modelled from the spec: outcome of `Server.Shutdown` — the returned
error and how many active connection dispatch loops were waited for. -/
structure ShutdownResult where
  err : Option GoErr
  loopsWaitedFor : Nat
deriving DecidableEq

/-- Modelled from the spec: `Server.Shutdown(ctx)` stops accepting and
waits for all active connection dispatch loops, but when the context is
already canceled it returns the context's cancellation error immediately,
waiting for none of them.  The Server implementation is not under `src/`;
only its contract tests are. -/
def Shutdown (ctxCanceled : Bool) (activeLoops : Nat) : ShutdownResult :=
  if ctxCanceled then ⟨some .contextCanceled, 0⟩ else ⟨none, activeLoops⟩

theorem len_dead (a : ArgsReader)
    (h : a.err.isSome = true ∨ a.dec.derr.isSome = true) : a.Len = 0 := by
  rcases h with h | h
  · simp [ArgsReader.Len, h]
  · simp [ArgsReader.Len, StreamDec.Len, h]

theorem next_dead (a : ArgsReader) (dst : Option Dst)
    (h : a.err.isSome = true ∨ a.dec.derr.isSome = true) : a.Next dst = (false, a) := by
  obtain ⟨⟨rem, derr⟩, err, od, hdn, ds⟩ := a
  rcases h with h | h
  · simp [ArgsReader.Next, ArgsReader.NextWith, h]
  · simp only at h
    obtain ⟨e2, he2⟩ := Option.isSome_iff_exists.mp h
    subst he2
    rcases err with _ | e
    · simp [ArgsReader.Next, ArgsReader.NextWith, StreamDec.Len, StreamDec.Decode]
    · simp [ArgsReader.Next, ArgsReader.NextWith]

theorem next_live_nonerror (v : RVal) (rest : List RVal) (od hdn : Bool)
    (ds : List (Option GoErr)) (dst : Option Dst) (hv : v.isError = false) :
    (ArgsReader.mk ⟨v :: rest, none⟩ none od hdn ds).Next dst
      = match dst with
        | none => (true, ArgsReader.mk ⟨rest, none⟩ none od hdn ds)
        | some t =>
          if convOk v t = true then (true, ArgsReader.mk ⟨rest, none⟩ none od hdn ds)
          else
            (false,
              ArgsReader.mk ⟨rest, some (GoErr.convError v.bytesOf)⟩ none od hdn ds) := by
  have hni : StreamDec.nextIsError ⟨v :: rest, none⟩ = false := by
    cases v <;> simp_all [StreamDec.nextIsError, RVal.isError]
  rcases dst with _ | t
  · simp [ArgsReader.Next, ArgsReader.NextWith, StreamDec.Len, hni, StreamDec.Decode]
  · by_cases hc : convOk v t = true <;>
      simp [ArgsReader.Next, ArgsReader.NextWith, StreamDec.Len, hni, StreamDec.Decode, hc]

/-- C1: for every argument stream, `Close` is idempotent and
first-call-wins: closing an already-closed reader returns the cached error
and leaves the state untouched (no further decoding, no further send on
the done channel); the first call runs the discard loop over the decoder
and appends exactly one completion message (the discard error) to the done
channel when one is attached. -/
theorem close_idempotent_first_call_wins (a : ArgsReader) :
    (a.Close.2).Close = (a.Close.1, a.Close.2)
    ∧ (a.Close.2).dec = (if a.onceDone then a.dec else a.dec.discardAll)
    ∧ (a.Close.2).doneSent
        = a.doneSent
          ++ (if a.onceDone = false ∧ a.hasDone = true then [a.dec.discardAll.Err] else []) := by
  by_cases h : a.onceDone
  · simp [ArgsReader.Close, h]
  · by_cases hd : a.hasDone <;> simp [ArgsReader.Close, h, hd]

/-- C2: with values remaining and no prior error, when the next value is a
RESP error-typed value, `Next` decodes it into the sticky error and
returns false, every subsequent `Next` returns false, and `Close` returns
that same error. -/
theorem resp_error_becomes_sticky (a : ArgsReader) (dst : Option Dst) (m : String)
    (rest : List RVal) (h1 : a.err = none) (h2 : a.dec = ⟨RVal.rerror m :: rest, none⟩) :
    (a.Next dst).1 = false
    ∧ (a.Next dst).2.err = some (GoErr.respError m)
    ∧ (∀ dst2, ((a.Next dst).2.Next dst2).1 = false)
    ∧ ((a.Next dst).2.Close).1 = some (GoErr.respError m) := by
  have hnext : a.Next dst
      = (false, { a with dec := ⟨rest, none⟩, err := some (GoErr.respError m) }) := by
    simp [ArgsReader.Next, ArgsReader.NextWith, h1, h2, StreamDec.Len, StreamDec.nextIsError]
  refine ⟨by simp [hnext], by simp [hnext], ?_, ?_⟩
  · intro dst2
    rw [hnext]
    rw [next_dead _ dst2 (by simp)]
  · rw [hnext]
    by_cases h : a.onceDone <;> simp [ArgsReader.Close, h]

/-- C3: whenever a call to `Next` fails (in particular when decoding
fails), the error is recorded stickily (in the reader's `err` field or the
decoder's), and from that point on every `Next` returns false without
changing the state and `Len` returns 0. -/
theorem next_failure_fail_fast (a : ArgsReader) (dst : Option Dst)
    (h : (a.Next dst).1 = false) :
    ((a.Next dst).2.err.isSome = true ∨ (a.Next dst).2.dec.derr.isSome = true)
    ∧ (a.Next dst).2.Len = 0
    ∧ ∀ dst2, (a.Next dst).2.Next dst2 = (false, (a.Next dst).2) := by
  have hdead :
      (a.Next dst).2.err.isSome = true ∨ (a.Next dst).2.dec.derr.isSome = true := by
    obtain ⟨⟨rem, derr⟩, err, od, hdn, ds⟩ := a
    rcases err with _ | e
    · rcases derr with _ | e2
      · rcases rem with _ | ⟨v, rest⟩
        · right
          simp [ArgsReader.Next, ArgsReader.NextWith, StreamDec.Len,
            StreamDec.nextIsError, StreamDec.Decode]
        · by_cases hv : v.isError = true
          · rcases v with i | s | s | m <;> simp [RVal.isError] at hv
            left
            simp [ArgsReader.Next, ArgsReader.NextWith, StreamDec.Len,
              StreamDec.nextIsError]
          · rw [next_live_nonerror v rest od hdn ds dst (by simpa using hv)] at h ⊢
            rcases dst with _ | t
            · simp at h
            · by_cases hc : convOk v t = true
              · simp [hc] at h
              · right
                simp [hc]
      · right
        rw [next_dead _ dst (by simp)]
        simp
    · left
      rw [next_dead _ dst (by simp)]
      simp
  exact ⟨hdead, len_dead _ hdead, fun dst2 => next_dead _ dst2 hdead⟩

theorem resp_error_becomes_sticky_witness :
    ((newArgsReader [RVal.rerror "ERR boom", RVal.rint 1] false).Next (some Dst.intDst)).1
        = false
    ∧ ((newArgsReader [RVal.rerror "ERR boom", RVal.rint 1] false).Next
        (some Dst.intDst)).2.err = some (GoErr.respError "ERR boom") :=
  ⟨(resp_error_becomes_sticky (newArgsReader [RVal.rerror "ERR boom", RVal.rint 1] false)
      (some Dst.intDst) "ERR boom" [RVal.rint 1] rfl rfl).1,
   (resp_error_becomes_sticky (newArgsReader [RVal.rerror "ERR boom", RVal.rint 1] false)
      (some Dst.intDst) "ERR boom" [RVal.rint 1] rfl rfl).2.1⟩

theorem next_failure_fail_fast_witness :
    ((newArgsReader [RVal.rbulk "abc"] false).Next (some Dst.intDst)).1 = false
    ∧ ((newArgsReader [RVal.rbulk "abc"] false).Next (some Dst.intDst)).2.Len = 0 :=
  ⟨by decide,
   (next_failure_fail_fast (newArgsReader [RVal.rbulk "abc"] false) (some Dst.intDst)
      (by decide)).2.1⟩

theorem runOps_append (a : ArgsReader) (xs ys : List AOp) :
    runOps a (xs ++ ys) = runOps (runOps a xs) ys := by
  induction xs generalizing a with
  | nil => rfl
  | cons op ops ih => simp [runOps, ih]

theorem discardLoop_eq (l : List RVal) : discardLoop l = ⟨[], some GoErr.endOfStream⟩ := by
  induction l with
  | nil => rfl
  | cons v rest ih => simpa [discardLoop] using ih

theorem next_frame (a : ArgsReader) (dst : Option Dst) :
    (a.Next dst).2.onceDone = a.onceDone ∧ (a.Next dst).2.hasDone = a.hasDone
    ∧ (a.Next dst).2.doneSent = a.doneSent := by
  rcases hD : a.dec.Decode dst with ⟨e, out, d⟩
  simp only [ArgsReader.Next, ArgsReader.NextWith]
  split
  · exact ⟨rfl, rfl, rfl⟩
  · split
    · split <;> exact ⟨rfl, rfl, rfl⟩
    · simp [hD]

theorem close_onceDone (a : ArgsReader) : (a.Close.2).onceDone = true := by
  by_cases h : a.onceDone <;> simp [ArgsReader.Close, h]

theorem close_derr (a : ArgsReader)
    (h : a.onceDone = true → a.dec.derr.isSome = true) :
    (a.Close.2).dec.derr.isSome = true := by
  by_cases ho : a.onceDone
  · simpa [ArgsReader.Close, ho] using h ho
  · rcases hd : a.dec.derr with _ | e <;>
      simp [ArgsReader.Close, ho, StreamDec.discardAll, hd, discardLoop_eq]

theorem stepOp_once_mono (a : ArgsReader) (op : AOp) (h : a.onceDone = true) :
    (stepOp a op).onceDone = true := by
  cases op with
  | len => exact h
  | close => exact close_onceDone a
  | next d =>
    show (a.Next d).2.onceDone = true
    rw [(next_frame a d).1]
    exact h

theorem stepOp_once_inv (a : ArgsReader) (op : AOp)
    (h : a.onceDone = true → a.dec.derr.isSome = true) :
    (stepOp a op).onceDone = true → (stepOp a op).dec.derr.isSome = true := by
  cases op with
  | len => exact h
  | close => exact fun _ => close_derr a h
  | next d =>
    intro ho
    have honce : a.onceDone = true := by rw [← (next_frame a d).1]; exact ho
    have hderr := h honce
    show (a.Next d).2.dec.derr.isSome = true
    rw [next_dead a d (Or.inr hderr)]
    exact hderr

theorem runOps_once_inv (a : ArgsReader) (ops : List AOp)
    (h : a.onceDone = true → a.dec.derr.isSome = true) :
    (runOps a ops).onceDone = true → (runOps a ops).dec.derr.isSome = true := by
  induction ops generalizing a with
  | nil => exact h
  | cons op ops ih => exact ih _ (stepOp_once_inv a op h)

theorem runOps_closed_dead (a : ArgsReader) (ops : List AOp)
    (h1 : a.onceDone = true) (h2 : a.dec.derr.isSome = true) :
    (runOps a ops).onceDone = true ∧ (runOps a ops).dec.derr.isSome = true := by
  induction ops generalizing a with
  | nil => exact ⟨h1, h2⟩
  | cons op ops ih =>
    refine ih _ (stepOp_once_mono a op h1) ?_
    cases op with
    | len => exact h2
    | close => exact close_derr a (fun _ => h2)
    | next d =>
      show (a.Next d).2.dec.derr.isSome = true
      rw [next_dead a d (Or.inr h2)]
      exact h2

theorem len_le_remaining (a : ArgsReader) : a.Len ≤ a.dec.remaining.length := by
  unfold ArgsReader.Len StreamDec.Len
  split
  · exact Nat.zero_le _
  · split
    · exact Nat.zero_le _
    · exact le_refl _

theorem next_remaining_le (a : ArgsReader) (dst : Option Dst) :
    ((a.Next dst).2).dec.remaining.length ≤ a.dec.remaining.length := by
  obtain ⟨⟨rem, derr⟩, err, od, hdn, ds⟩ := a
  rcases err with _ | e
  · rcases derr with _ | e2
    · rcases rem with _ | ⟨v, rest⟩
      · simp [ArgsReader.Next, ArgsReader.NextWith, StreamDec.Len,
          StreamDec.nextIsError, StreamDec.Decode]
      · by_cases hv : v.isError = true
        · rcases v with i | s | s | m <;> simp [RVal.isError] at hv
          simp [ArgsReader.Next, ArgsReader.NextWith, StreamDec.Len,
            StreamDec.nextIsError]
        · rw [next_live_nonerror v rest od hdn ds dst (by simpa using hv)]
          rcases dst with _ | t
          · simp [Nat.le_succ]
          · by_cases hc : convOk v t = true <;> simp [hc, Nat.le_succ]
    · rw [next_dead _ dst (by simp)]
  · rw [next_dead _ dst (by simp)]

theorem close_remaining_le (a : ArgsReader) :
    (a.Close.2).dec.remaining.length ≤ a.dec.remaining.length := by
  by_cases h : a.onceDone
  · simp [ArgsReader.Close, h]
  · rcases hd : a.dec.derr with _ | e <;>
      simp [ArgsReader.Close, h, StreamDec.discardAll, hd, discardLoop_eq]

theorem stepOp_remaining_le (a : ArgsReader) (op : AOp) :
    (stepOp a op).dec.remaining.length ≤ a.dec.remaining.length := by
  cases op with
  | len => exact le_refl _
  | next d => exact next_remaining_le a d
  | close => exact close_remaining_le a

theorem runOps_remaining_le (a : ArgsReader) (ops : List AOp) :
    (runOps a ops).dec.remaining.length ≤ a.dec.remaining.length := by
  induction ops generalizing a with
  | nil => exact le_refl _
  | cons op ops ih => exact le_trans (ih _) (stepOp_remaining_le a op)

/-- C4: over any call sequence on a fresh reader, `Len` never exceeds the
announced element count, and once a `Close` has happened anywhere in the
sequence, `Len` is 0 and every further `Next` returns false. -/
theorem len_bounded_and_zero_after_close (vals : List RVal) (hasDone : Bool)
    (ops : List AOp) :
    (runOps (newArgsReader vals hasDone) ops).Len ≤ vals.length
    ∧ ∀ ops1 ops2, ops = ops1 ++ AOp.close :: ops2 →
        (runOps (newArgsReader vals hasDone) ops).Len = 0
        ∧ ∀ d, ((runOps (newArgsReader vals hasDone) ops).Next d).1 = false := by
  constructor
  · exact le_trans (len_le_remaining _) (runOps_remaining_le _ ops)
  · intro ops1 ops2 hops
    subst hops
    rw [runOps_append]
    simp only [runOps, stepOp]
    have hbinv : (runOps (newArgsReader vals hasDone) ops1).onceDone = true →
        (runOps (newArgsReader vals hasDone) ops1).dec.derr.isSome = true :=
      runOps_once_inv _ ops1 (by intro h; exact absurd h (by simp [newArgsReader]))
    have hdead := runOps_closed_dead ((runOps (newArgsReader vals hasDone) ops1).Close.2)
      ops2 (close_onceDone _) (close_derr _ hbinv)
    refine ⟨len_dead _ (Or.inr hdead.2), fun d => ?_⟩
    rw [next_dead _ d (Or.inr hdead.2)]

theorem len_bounded_and_zero_after_close_witness :
    (runOps (newArgsReader [RVal.rint 1, RVal.rint 2] false) [AOp.close]).Len = 0
    ∧ (runOps (newArgsReader [RVal.rint 1, RVal.rint 2] false) [AOp.close]).Len ≤ 2 :=
  ⟨((len_bounded_and_zero_after_close [RVal.rint 1, RVal.rint 2] false [AOp.close]).2
      [] [] rfl).1,
   by simpa using (len_bounded_and_zero_after_close [RVal.rint 1, RVal.rint 2] false
      [AOp.close]).1⟩

/-- C7: `Len` returns the remaining unread count (0 once the stream is in
error, including exhaustion) and never mutates state: inserting a `Len`
call anywhere in a call sequence leaves the resulting state — and hence
the result of every later `Next` and `Close` — unchanged. -/
theorem len_pure_and_counts (a : ArgsReader) (ops1 ops2 : List AOp) :
    runOps a (ops1 ++ AOp.len :: ops2) = runOps a (ops1 ++ ops2)
    ∧ (a.err.isSome = true ∨ a.dec.derr.isSome = true → a.Len = 0)
    ∧ (a.err = none → a.dec.derr = none → a.Len = a.dec.remaining.length) := by
  refine ⟨?_, fun h => len_dead a h, fun h1 h2 => ?_⟩
  · rw [runOps_append, runOps_append]
    rfl
  · simp [ArgsReader.Len, StreamDec.Len, h1, h2]

theorem len_pure_and_counts_witness :
    runOps (newArgsReader [RVal.rint 5] false) ([AOp.next none] ++ AOp.len :: [AOp.close])
      = runOps (newArgsReader [RVal.rint 5] false) ([AOp.next none] ++ [AOp.close])
    ∧ (newArgsReader [RVal.rint 5] false).Len = 1 :=
  ⟨(len_pure_and_counts (newArgsReader [RVal.rint 5] false) [AOp.next none] [AOp.close]).1,
   by simpa using
     (len_pure_and_counts (newArgsReader [RVal.rint 5] false) [] []).2.2 rfl rfl⟩

theorem drop_cons_facts {α : Type} (l : List α) (n : Nat) (r : α) (rest : List α) (d : α)
    (h : l.drop n = r :: rest) :
    l[n]?.getD d = r ∧ l.drop (n + 1) = rest ∧ n < l.length := by
  induction l generalizing n with
  | nil => simp at h
  | cons x xs ih =>
    cases n with
    | zero =>
      simp only [List.drop_zero] at h
      obtain ⟨h1, h2⟩ := List.cons.inj h
      subst h1
      subst h2
      simp
    | succ n =>
      have h2 : xs.drop n = r :: rest := by simpa using h
      obtain ⟨g1, g2, g3⟩ := ih n h2
      refine ⟨by simpa using g1, by simpa using g2, by simpa using g3⟩

theorem crun_fifo_inv (evs : List CEvent) (s : ConnState)
    (h1 : s.answered ≤ s.wire.length)
    (h2 : s.pending = s.wire.drop s.answered)
    (h3 : ∀ p ∈ s.delivered, p.2 = respond p.1) :
    (crun s evs).answered ≤ (crun s evs).wire.length
    ∧ (crun s evs).pending = (crun s evs).wire.drop (crun s evs).answered
    ∧ ∀ p ∈ (crun s evs).delivered, p.2 = respond p.1 := by
  induction evs generalizing s with
  | nil => exact ⟨h1, h2, h3⟩
  | cons ev evs ih =>
    cases ev with
    | submit r =>
      apply ih
      · simp [cstep]
        exact le_trans h1 (Nat.le_succ _)
      · simp only [cstep]
        rw [h2, List.drop_append_of_le_length h1]
      · simpa [cstep] using h3
    | deliver =>
      rcases hp : s.pending with _ | ⟨r, rest⟩
      · apply ih
        · simpa [crun, cstep, hp] using h1
        · simpa [crun, cstep, hp] using h2
        · simpa [crun, cstep, hp] using h3
      · rw [hp] at h2
        obtain ⟨g1, g2, g3⟩ := drop_cons_facts s.wire s.answered r rest Req.ping h2.symm
        apply ih
        · simpa [cstep, hp] using g3
        · simpa [cstep, hp] using g2.symm
        · simp only [cstep, hp]
          intro p hmem
          rcases List.mem_append.mp hmem with hm | hm
          · exact h3 p hm
          · rcases List.mem_singleton.mp hm with rfl
            simp [List.getD, g1]

/-- C5: over one physical connection shared by concurrent callers, for
every interleaving of request submissions (including keepalive pings) and
reply deliveries, FIFO matching holds: each caller of a streamed query for
`i` elements receives exactly the `i` values `1..i` in order.  Modelled
from the spec: the Connection/Transport implementation is not under
`src/`, so the connection (atomic write-and-enqueue, single reader
matching replies in arrival order to the pending-queue head) is modelled
from the spec's Connection & Transport section. -/
theorem fifo_reply_matching (evs : List CEvent) (c i : Nat) (vs : List Int)
    (h : (Req.lrange c i, vs) ∈ (crun connInit evs).delivered) :
    vs = respond (Req.lrange c i) ∧ vs.length = i := by
  have hinv := crun_fifo_inv evs connInit (by simp [connInit]) (by simp [connInit])
    (by simp [connInit])
  have hv : vs = respond (Req.lrange c i) := hinv.2.2 _ h
  refine ⟨hv, ?_⟩
  rw [hv]
  show ((List.range i).map (fun j => ((j + 1 : Nat) : Int))).length = i
  rw [List.length_map, List.length_range]

theorem fifo_reply_matching_witness :
    ((Req.lrange 7 2, ([1, 2] : List Int)) ∈
      (crun connInit [CEvent.submit (Req.lrange 7 2), CEvent.submit Req.ping,
        CEvent.deliver, CEvent.deliver]).delivered)
    ∧ ([1, 2] : List Int) = respond (Req.lrange 7 2)
    ∧ ([1, 2] : List Int).length = 2 :=
  ⟨by decide,
   (fifo_reply_matching [CEvent.submit (Req.lrange 7 2), CEvent.submit Req.ping,
      CEvent.deliver, CEvent.deliver] 7 2 [1, 2] (by decide)).1,
   (fifo_reply_matching [CEvent.submit (Req.lrange 7 2), CEvent.submit Req.ping,
      CEvent.deliver, CEvent.deliver] 7 2 [1, 2] (by decide)).2⟩

/-- C8: `Shutdown` called with an already-canceled context returns the
context's cancellation error immediately, waiting for none of the active
connection dispatch loops.  Modelled from the spec: the Server
implementation is not under `src/`, so `Shutdown` is modelled from the
spec's Server dispatch section. -/
theorem shutdown_canceled_ctx_immediate (activeLoops : Nat) :
    Shutdown true activeLoops = ⟨some GoErr.contextCanceled, 0⟩ := rfl

theorem objutilParseInt_error (s : String) (e : GoErr)
    (h : objutilParseInt s = .error e) : e = GoErr.parseIntError s := by
  unfold objutilParseInt at h
  split at h
  · split at h
    · split at h <;> simp_all
    · simp_all
  · split at h
    · split at h <;> simp_all
    · simp_all

theorem strconvParseUint_error (s : String) (e : GoErr)
    (h : strconvParseUint s = .error e) : e = GoErr.parseUintError s := by
  unfold strconvParseUint at h
  split at h
  · split at h <;> simp_all
  · simp_all

theorem mapInt_not_unsupported (b : String) (f : Int → PVal) (s : String) :
    (objutilParseInt b).map f ≠ Except.error (GoErr.unsupportedType s) := by
  rcases hpi : objutilParseInt b with e | v
  · rw [objutilParseInt_error _ _ hpi]
    simp [Except.map]
  · simp [Except.map]

theorem mapUint_not_unsupported (b : String) (f : Nat → PVal) (s : String) :
    (strconvParseUint b).map f ≠ Except.error (GoErr.unsupportedType s) := by
  rcases hpu : strconvParseUint b with e | v
  · rw [strconvParseUint_error _ _ hpu]
    simp [Except.map]
  · simp [Except.map]

theorem parse_unsupported (bar : ByteArgsReader) (k : Kind)
    (h : specSupported k = false) :
    bar.parse k = .error (GoErr.unsupportedType k.typeName) := by
  cases k <;> simp_all [ByteArgsReader.parse, specSupported, Kind.typeName]

theorem parse_supported_not_unsupported (bar : ByteArgsReader) (k : Kind) (s : String)
    (h : specSupported k = true) :
    bar.parse k ≠ .error (GoErr.unsupportedType s) := by
  cases k <;>
    first
      | exact mapInt_not_unsupported _ _ _
      | exact mapUint_not_unsupported _ _ _
      | (simp only [ByteArgsReader.parse]; split <;> simp_all [specSupported])
      | simp_all [ByteArgsReader.parse, specSupported]

theorem nextWith_bytes_live (v : RVal) (rest : List RVal) (od hdn : Bool)
    (ds : List (Option GoErr)) (hv : v.isError = false) :
    (ArgsReader.mk ⟨v :: rest, none⟩ none od hdn ds).NextWith (some Dst.bytesDst)
      = (true, some v.bytesOf, ArgsReader.mk ⟨rest, none⟩ none od hdn ds) := by
  have hni : StreamDec.nextIsError ⟨v :: rest, none⟩ = false := by
    cases v <;> simp_all [StreamDec.nextIsError, RVal.isError]
  have hc : convOk v Dst.bytesDst = true := by
    cases v <;> simp_all [convOk, RVal.isError]
  simp [ArgsReader.NextWith, StreamDec.Len, hni, StreamDec.Decode, hc]

theorem byteNext_parse_error (v : RVal) (rest : List RVal) (od hdn : Bool)
    (ds : List (Option GoErr)) (b0 : String) (k : Kind) (e : GoErr)
    (hv : v.isError = false)
    (hp : (ByteArgsReader.mk (ArgsReader.mk ⟨rest, none⟩ none od hdn ds) v.bytesOf).parse k
          = .error e) :
    (ByteArgsReader.mk (ArgsReader.mk ⟨v :: rest, none⟩ none od hdn ds) b0).Next (some k)
      = (false,
          ByteArgsReader.mk (ArgsReader.mk ⟨rest, none⟩ (some e) od hdn ds) v.bytesOf) := by
  simp [ByteArgsReader.Next, nextWith_bytes_live v rest od hdn ds hv, hp]

/-- C6: `byteArgsReader.parse` dispatches over exactly the closed set of
destination kinds the spec names (boolean, signed integer, unsigned
integer, floating point, string, byte slice): on a supported kind it never
produces the unsupported-type error, on any other kind it always produces
the unsupported-type error naming the offending destination type, and a
`Next` into such a destination returns false with that error as the
stream's sticky error. -/
theorem parse_closed_dispatch (k : Kind) :
    (specSupported k = true → ∀ (bar : ByteArgsReader) (s : String),
        bar.parse k ≠ .error (GoErr.unsupportedType s))
    ∧ (specSupported k = false → ∀ (bar : ByteArgsReader),
        bar.parse k = .error (GoErr.unsupportedType k.typeName))
    ∧ (specSupported k = false → ∀ (bar : ByteArgsReader) (v : RVal) (rest : List RVal),
        bar.ar.err = none → bar.ar.dec = ⟨v :: rest, none⟩ → v.isError = false →
        (bar.Next (some k)).1 = false
        ∧ (bar.Next (some k)).2.ar.err = some (GoErr.unsupportedType k.typeName)) := by
  refine ⟨fun h bar s => parse_supported_not_unsupported bar k s h,
    fun h bar => parse_unsupported bar k h,
    fun h bar v rest h1 h2 hv => ?_⟩
  obtain ⟨⟨dec, err, od, hdn, ds⟩, b⟩ := bar
  simp only at h1 h2
  subst h1
  subst h2
  rw [byteNext_parse_error v rest od hdn ds b k _ hv
    (parse_unsupported _ k h)]
  exact ⟨rfl, rfl⟩

theorem parse_closed_dispatch_witness :
    ((newByteArgsReader [RVal.rbulk "a"] false).Next (some Kind.mapK)).1 = false
    ∧ ((newByteArgsReader [RVal.rbulk "a"] false).Next (some Kind.mapK)).2.ar.err
        = some (GoErr.unsupportedType "map")
    ∧ (newByteArgsReader [RVal.rbulk "12"] false).parse Kind.int
        ≠ Except.error (GoErr.unsupportedType "int") :=
  ⟨((parse_closed_dispatch Kind.mapK).2.2 rfl (newByteArgsReader [RVal.rbulk "a"] false)
      (RVal.rbulk "a") [] rfl rfl rfl).1,
   ((parse_closed_dispatch Kind.mapK).2.2 rfl (newByteArgsReader [RVal.rbulk "a"] false)
      (RVal.rbulk "a") [] rfl rfl rfl).2,
   (parse_closed_dispatch Kind.int).1 rfl (newByteArgsReader [RVal.rbulk "12"] false) "int"⟩

theorem close_ret_eq_err (a : ArgsReader) : a.Close.1 = (a.Close.2).err := by
  by_cases h : a.onceDone <;> simp [ArgsReader.Close, h]

theorem close_doneSent_len (a : ArgsReader) :
    (a.Close.2).doneSent.length
      = a.doneSent.length + (if a.onceDone = false ∧ a.hasDone = true then 1 else 0) := by
  by_cases h : a.onceDone
  · simp [ArgsReader.Close, h]
  · by_cases hd : a.hasDone <;> simp [ArgsReader.Close, h, hd]

theorem parseArgs_spec (dsts : List (Option Dst)) (a : ArgsReader) :
    (ParseArgs a dsts).2.onceDone = true
    ∧ (ParseArgs a dsts).1 = (ParseArgs a dsts).2.err
    ∧ (ParseArgs a dsts).2.doneSent.length
        = a.doneSent.length + (if a.onceDone = false ∧ a.hasDone = true then 1 else 0) := by
  induction dsts generalizing a with
  | nil => exact ⟨close_onceDone a, close_ret_eq_err a, close_doneSent_len a⟩
  | cons dst dsts ih =>
    rcases hn : a.Next dst with ⟨ok, a2⟩
    have hfr := next_frame a dst
    rw [hn] at hfr
    cases ok
    · simp only [ParseArgs, hn]
      refine ⟨close_onceDone a2, close_ret_eq_err a2, ?_⟩
      rw [close_doneSent_len a2, hfr.1, hfr.2.1, hfr.2.2]
    · simp only [ParseArgs, hn]
      obtain ⟨g1, g2, g3⟩ := ih a2
      exact ⟨g1, g2, by rw [g3, hfr.1, hfr.2.1, hfr.2.2]⟩

/-- C9: `ParseArgs` reads destinations in order via `Next`, stops at the
first failed read, and always finishes by closing the list exactly once
(the closed flag is set and the completion channel receives exactly one
message when attached and not already closed) and returning the closed
stream's error; the helpers `Int`, `Int64` and `String` likewise always
close the list they are given. -/
theorem parseArgs_always_closes (a : ArgsReader) (dsts : List (Option Dst)) :
    (ParseArgs a dsts).2.onceDone = true
    ∧ (ParseArgs a dsts).1 = (ParseArgs a dsts).2.err
    ∧ (ParseArgs a dsts).2.doneSent.length
        = a.doneSent.length + (if a.onceDone = false ∧ a.hasDone = true then 1 else 0)
    ∧ (redis.Int a).2.onceDone = true
    ∧ (redis.Int64 a).2.onceDone = true
    ∧ (redis.String a).2.onceDone = true :=
  ⟨(parseArgs_spec dsts a).1, (parseArgs_spec dsts a).2.1, (parseArgs_spec dsts a).2.2,
   (parseArgs_spec [some Dst.intDst] a).1, (parseArgs_spec [some Dst.intDst] a).1,
   (parseArgs_spec [some Dst.strDst] a).1⟩

/-- C10 counterexample: a stream whose single remaining value is a RESP
error-typed value has one remaining value and no prior error, yet `Next`
with a nil destination returns false (the error branch fires before the
discard), contradicting the claim that it returns true. -/
theorem next_nil_counterexample :
    (newArgsReader [RVal.rerror "boom"] false).Len = 1
    ∧ (newArgsReader [RVal.rerror "boom"] false).err = none
    ∧ ((newArgsReader [RVal.rerror "boom"] false).Next none).1 = false := by
  decide

/-- C10 amended: with at least one remaining value, no prior error, and
the next value not RESP error-typed, `Next` with a nil destination (for
the generic reader and the byte reader alike) consumes the value, returns
true, performs no conversion, and decreases `Len` by one. -/
theorem next_nil_discards_amended (a : ArgsReader) (bar : ByteArgsReader)
    (v w : RVal) (rest rest2 : List RVal)
    (h1 : a.err = none) (h2 : a.dec = ⟨v :: rest, none⟩) (h3 : v.isError = false)
    (h4 : bar.ar.err = none) (h5 : bar.ar.dec = ⟨w :: rest2, none⟩)
    (h6 : w.isError = false) :
    a.Next none = (true, { a with dec := ⟨rest, none⟩ })
    ∧ ({ a with dec := ⟨rest, none⟩ } : ArgsReader).Len + 1 = a.Len
    ∧ (bar.Next none).1 = true
    ∧ (bar.Next none).2.ar = { bar.ar with dec := ⟨rest2, none⟩ }
    ∧ (bar.Next none).2.ar.Len + 1 = bar.ar.Len := by
  obtain ⟨⟨dec, err, od, hdn, ds⟩, b⟩ := bar
  simp only at h4 h5
  subst h4
  subst h5
  obtain ⟨dec, err, od2, hdn2, ds2⟩ := a
  simp only at h1 h2
  subst h1
  subst h2
  refine ⟨?_, ?_, ?_, ?_, ?_⟩
  · rw [next_live_nonerror v rest od2 hdn2 ds2 none h3]
  · simp [ArgsReader.Len, StreamDec.Len]
  · simp [ByteArgsReader.Next, nextWith_bytes_live w rest2 od hdn ds h6]
  · simp [ByteArgsReader.Next, nextWith_bytes_live w rest2 od hdn ds h6]
  · simp [ByteArgsReader.Next, nextWith_bytes_live w rest2 od hdn ds h6,
      ArgsReader.Len, StreamDec.Len]

theorem next_nil_discards_amended_witness :
    ((newArgsReader [RVal.rbulk "x", RVal.rbulk "y"] false).Next none).1 = true
    ∧ ((newByteArgsReader [RVal.rbulk "z"] false).Next none).1 = true :=
  ⟨by rw [(next_nil_discards_amended (newArgsReader [RVal.rbulk "x", RVal.rbulk "y"] false)
      (newByteArgsReader [RVal.rbulk "z"] false) (RVal.rbulk "x") (RVal.rbulk "z")
      [RVal.rbulk "y"] [] rfl rfl rfl rfl rfl rfl).1],
   (next_nil_discards_amended (newArgsReader [RVal.rbulk "x", RVal.rbulk "y"] false)
      (newByteArgsReader [RVal.rbulk "z"] false) (RVal.rbulk "x") (RVal.rbulk "z")
      [RVal.rbulk "y"] [] rfl rfl rfl rfl rfl rfl).2.2.1⟩
